import Mathlib

/-
Verification development for the msid_plotting repository.

Shallow embedding conventions:
* SQLite rows of the glimmon limits table (class Limit in msid_limit.py) are
  a Lean structure; the database is a List Limit in row order.
* Numeric SQL columns declared as float (datesec, caution/warning bounds) are
  modelled as Int: the embedded code only compares and orders them, never does
  fractional arithmetic on them.
* Timestamps are a linear count of seconds (Int); the calendar date of a
  timestamp is its midnight, i.e. floor-division by 86400.
* Python exceptions are modelled by Option: none is a raised error
  (or the NotFound outcome, where noted).
* Python str comparison is Lean String equality; str.lower is charwise
  Char.toLower (pyLower); MSID names in this system are ASCII.
-/

namespace Msid

/-- Row of the glimmon limits table, translated from the SQLAlchemy ORM class
Limit in msid_limit.py (same fields, display-only methods omitted). -/
structure Limit where
  id : Int
  msid : String
  setkey : Int
  datesec : Int
  mlmenable : Bool
  mlmtol : Int
  default_set : Int
  mlimsw : String
  caution_high : Int
  caution_low : Int
  warning_high : Int
  warning_low : Int
  switchstate : String
deriving DecidableEq

/-- First-occurrence deduplication with an accumulator of already-seen
elements; models SQL SELECT DISTINCT over the row stream. -/
def dedupFirstAux {α : Type} [DecidableEq α] : List α → List α → List α
  | _, [] => []
  | seen, a :: as =>
    if a ∈ seen then dedupFirstAux seen as
    else a :: dedupFirstAux (a :: seen) as

def dedupFirst {α : Type} [DecidableEq α] (l : List α) : List α :=
  dedupFirstAux [] l

/-- A one-column result row of session.query(Limit.mlimsw): in Python this is
a 1-tuple such as a pair of parentheses around one string. -/
structure PyRow where
  fst : String
deriving DecidableEq

/-- Python equality test between a result row (a 1-tuple) and a string.
Values of different types are never equal under Python ==, so this is false
for every row and every string. -/
def pyRowEqStr (_ : PyRow) (_ : String) : Bool := false

/-- query_switch of msid_limit.py: filter rows whose msid is one of the
inputs (SQL or_ of exact equalities, no case normalisation), select DISTINCT
mlimsw, then keep rows i with i != the string none and take i[0]. -/
def query_switch (db : List Limit) (msids : List String) : List String :=
  let matched := db.filter (fun r => decide (r.msid ∈ msids))
  let result : List PyRow := dedupFirst (matched.map (fun r => PyRow.mk r.mlimsw))
  (result.filter (fun i => !(pyRowEqStr i "none"))).map PyRow.fst

/-- Python str.lower, charwise (ASCII inputs). -/
def pyLower (s : String) : String := String.mk (s.data.map Char.toLower)

/-- Stable insertion of a row into a list sorted by datesec ascending. -/
def insertByDatesec (r : Limit) : List Limit → List Limit
  | [] => [r]
  | a :: as => if r.datesec ≤ a.datesec then r :: a :: as else a :: insertByDatesec r as

/-- Stable sort by datesec ascending; models SQL ORDER BY datesec. -/
def sortByDatesec (l : List Limit) : List Limit := l.foldr insertByDatesec []

/-- Row history of one channel, as queried inside query_msid_limits:
rows whose msid equals the lowercased input, ordered by datesec. -/
def rowsForChannel (db : List Limit) (msid : String) : List Limit :=
  sortByDatesec (db.filter (fun r => decide (r.msid = pyLower msid)))

/-- Python dict keyed by strings, as an insertion-ordered association list. -/
def dictLookup (d : List (String × List Limit)) (k : String) : Option (List Limit) :=
  match d.find? (fun p => decide (p.1 = k)) with
  | some p => some p.2
  | none => none

/-- Python dict assignment d[k] = v: replace in place when the key exists,
otherwise append at the end. -/
def dictInsert (d : List (String × List Limit)) (k : String) (v : List Limit) :
    List (String × List Limit) :=
  if d.any (fun p => decide (p.1 = k)) then
    d.map (fun p => if p.1 = k then (k, v) else p)
  else d ++ [(k, v)]

def dictKeys (d : List (String × List Limit)) : List String := d.map Prod.fst

/-- query_msid_limits of msid_limit.py: for each input msid (original casing
kept as the dict key) store the ordered row history of its lowercased name. -/
def query_msid_limits (db : List Limit) (msids : List String) :
    List (String × List Limit) :=
  msids.foldl (fun acc m => dictInsert acc m (rowsForChannel db m)) []

/-- Modelled from the spec: the Limit Resolver (resolveActive, spec section
4.2) is not present in the source files, which only contain the row-history
query it builds on; this and the next two definitions follow the spec's
algorithm. Step 2: for one setKey, the row with the greatest effectiveAt at
most atTime, ties broken by preferring the later row in repository order. -/
def currentRowForSet (rows : List Limit) (k : Int) (atTime : Int) : Option Limit :=
  (rows.filter (fun r => decide (r.setkey = k ∧ r.datesec ≤ atTime))).foldl
    (fun best r =>
      match best with
      | none => some r
      | some b => if b.datesec ≤ r.datesec then some r else some b)
    none

/-- Modelled from the spec: the current row of a setKey counts as active only
when its enabled flag is set (spec section 4.2 step 2). -/
def activeRowForSet (rows : List Limit) (k : Int) (atTime : Int) : Option Limit :=
  match currentRowForSet rows k atTime with
  | some r => if r.mlmenable then some r else none
  | none => none

/-- Modelled from the spec: resolveActive of spec section 4.2. Fetch the
channel history, build the per-setKey active rows, select a setKey (defaultSet
when the rows never reference a switch channel or when the switch value is
missing or unmatched, otherwise the setKey whose current row's switchstate
equals the switch value), and return that setKey's active row; none models
the NotFound outcome. -/
def resolveActive (db : List Limit) (channel : String) (atTime : Int)
    (switchValue : Option String) : Option Limit :=
  let rows := rowsForChannel db channel
  let keys := dedupFirst (rows.map (fun r => r.setkey))
  let currents := keys.filterMap (fun k => activeRowForSet rows k atTime)
  match currents with
  | [] => none
  | c :: _ =>
    let selected : Int :=
      if rows.all (fun r => decide (r.mlimsw = "none")) then c.default_set
      else
        match switchValue with
        | none => c.default_set
        | some v =>
          match currents.find? (fun r => decide (r.switchstate = v)) with
          | some r => r.setkey
          | none => c.default_set
    activeRowForSet rows selected atTime

/-- Python whitespace characters stripped by int() on its string argument
(ASCII subset). -/
def isPySpace (c : Char) : Bool :=
  decide (c = ' ' ∨ c = '\t' ∨ c = '\n' ∨ c = '\r' ∨ c = '\x0b' ∨ c = '\x0c')

def stripPyWs (l : List Char) : List Char :=
  (((l.dropWhile isPySpace).reverse).dropWhile isPySpace).reverse

/-- Digit tail of a Python decimal integer literal: digits, with single
underscores allowed between digits. -/
def goDigits : List Char → Nat → Option Nat
  | [], acc => some acc
  | '_' :: c :: cs, acc =>
    if c.isDigit then goDigits cs (acc * 10 + (c.toNat - 48)) else none
  | ['_'], _ => none
  | c :: cs, acc =>
    if c.isDigit then goDigits cs (acc * 10 + (c.toNat - 48)) else none

/-- Nonempty digit run that must start with a digit (not an underscore). -/
def pyUnsigned : List Char → Option Nat
  | [] => none
  | c :: cs => if c.isDigit then goDigits cs (c.toNat - 48) else none

/-- Python built-in int() applied to a string: optional surrounding
whitespace, optional single sign, then a decimal digit run with single
underscores permitted between digits; none models the raised ValueError.
(Non-ASCII digits and whitespace are outside this system's inputs.) -/
def pyInt (s : String) : Option Int :=
  match stripPyWs s.data with
  | '+' :: rest => (pyUnsigned rest).map (fun n => (n : Int))
  | '-' :: rest => (pyUnsigned rest).map (fun n => -(n : Int))
  | rest => (pyUnsigned rest).map (fun n => (n : Int))

/-- Python slice s[:n] (clamped). -/
def pySliceTo (s : String) (n : Nat) : String := String.mk (s.data.take n)

/-- Python slice s[n:] (clamped). -/
def pySliceFrom (s : String) (n : Nat) : String := String.mk (s.data.drop n)

/-- datetime.time(hour=h, minute=m): valid for 0 <= h <= 23 and
0 <= m <= 59, otherwise a ValueError (none). -/
def pyTime (h m : Int) : Option (Int × Int) :=
  if 0 ≤ h ∧ h ≤ 23 ∧ 0 ≤ m ∧ m ≤ 59 then some (h, m) else none

/-- Midnight of the calendar day containing timestamp t (datetime .date()). -/
def dateOf (t : Int) : Int := t / 86400 * 86400

/-- One dsn_comms event row as consumed by CommCheck.check: pass start and
stop timestamps and the bot/eot clock-of-day strings. -/
structure CommPass where
  start : Int
  stop : Int
  bot : String
  eot : String
deriving DecidableEq

/-- The state CommCheck.check stores on the instance. -/
structure CommState where
  current_time : Int
  support_start : Int
  support_stop : Int
  track_start : Int
  track_stop : Int
  in_support : Bool
  in_track : Bool
deriving DecidableEq

/-- Candidate track boundary built in CommCheck.check:
datetime.combine(base date, time(hour=int(clock[:2]), minute=int(clock[2:]))).
none models a raised ValueError from int() or time(). -/
def trackCandidate (base : Int) (clock : String) : Option Int :=
  match pyInt (pySliceTo clock 2), pyInt (pySliceFrom clock 2) with
  | some h, some m =>
    match pyTime h m with
    | some hm => some (dateOf base + hm.1 * 3600 + hm.2 * 60)
    | none => none
  | _, _ => none

/-- Field assignments at the end of CommCheck.check, given the two parsed
track candidates: rollover correction and the two membership flags. -/
def mkCommState (comm : CommPass) (t c1 c2 : Int) : CommState :=
  let track_start := if c1 < comm.start then c1 + 86400 else c1
  let track_stop := if c2 > comm.stop then c2 - 86400 else c2
  { current_time := t
    support_start := comm.start
    support_stop := comm.stop
    track_start := track_start
    track_stop := track_stop
    in_support := decide (comm.start < t ∧ t < comm.stop)
    in_track := decide (track_start < t ∧ t < track_stop) }

/-- Window arithmetic of CommCheck.check (msid_plot.py lines 122-157) as a
function of the comm pass it fetched and the current time it read; none
models a ValueError escaping from the clock-string parsing. -/
def commCheck (comm : CommPass) (current_time : Int) : Option CommState :=
  match trackCandidate comm.start comm.bot, trackCandidate comm.stop comm.eot with
  | some c1, some c2 => some (mkCommState comm current_time c1 c2)
  | _, _ => none

/-- Ambient state read by CommCheck.check: the clock (CxoTime()) and the kadi
dsn_comms event query, keyed by the start time passed to filter. -/
structure DsnEnv where
  clock : Int
  dsn_comms : Int → List CommPass

/-- CommCheck.check including its input acquisition: read the clock, query
dsn_comms at that time, take element 0 (an IndexError when empty, merged into
none), then run the window arithmetic. -/
def commCheckFull (env : DsnEnv) : Option CommState :=
  match env.dsn_comms env.clock with
  | [] => none
  | comm :: _ => commCheck comm env.clock

/-- Loop body of _resize in msid_plot.py: append the current last element n
times; none models the IndexError of indexing an empty array. -/
def appendLastLoop {α : Type} : Nat → List α → Option (List α)
  | 0, l => some l
  | n + 1, l =>
    match l.getLast? with
    | some x => appendLastLoop n (l ++ [x])
    | none => none

/-- The _resize helper of msid_plot.py, on arrays modelled as lists:
truncate beta to alpha's length, or pad it by repeatedly appending its last
element, or return it unchanged; alpha is only read for its size. -/
def _resize {α : Type} (alpha beta : List α) : Option (List α) :=
  if alpha.length < beta.length then some (beta.take alpha.length)
  else if alpha.length > beta.length then
    appendLastLoop (alpha.length - beta.length) beta
  else some beta

/-- The parse-and-validate condition the code actually imposes on one clock
string: its first two characters and its remainder must each be accepted by
Python int(), and the two values must be a legal hour and minute. -/
def clockValid (s : String) : Bool :=
  match pyInt (pySliceTo s 2), pyInt (pySliceFrom s 2) with
  | some h, some m => (pyTime h m).isSome
  | _, _ => false

/-- From the spec's words, for refuting claim C8 as stated: a clock string in
two-digit-hour two-digit-minute form. -/
def specTwoDigitClock (s : String) : Bool :=
  match s.data with
  | [c1, c2, c3, c4] =>
    c1.isDigit && c2.isDigit && c3.isDigit && c4.isDigit &&
    decide ((c1.toNat - 48) * 10 + (c2.toNat - 48) ≤ 23) &&
    decide ((c3.toNat - 48) * 10 + (c4.toNat - 48) ≤ 59)
  | _ => false

/-- Concrete limits row with the fields the claims exercise; the numeric
limit bounds are fixed opaque values. -/
def mkRow (i : Int) (ms : String) (sk ds : Int) (en : Bool) (dset : Int)
    (sw sst : String) : Limit :=
  { id := i, msid := ms, setkey := sk, datesec := ds, mlmenable := en,
    mlmtol := 0, default_set := dset, mlimsw := sw, caution_high := 100,
    caution_low := 0, warning_high := 110, warning_low := -10,
    switchstate := sst }

/-- Claim C1 (the code contradicts it): the filter in query_switch compares a
one-column result row, a 1-tuple, with the string none; values of different
types are never equal in Python, so the no-switch sentinel survives the
filter. For a channel whose only row has mlimsw = none the function returns
the sentinel itself instead of the empty list its own docstring promises. -/
theorem query_switch_keeps_sentinel :
    query_switch [mkRow 1 "abc" 0 100 true 0 "none" "none"] ["abc"] = ["none"] := by
  decide

/-- The padding loop of _resize appends the original last element n times. -/
theorem appendLastLoop_spec {α : Type} :
    ∀ (n : Nat) (l : List α) (x : α), l.getLast? = some x →
      appendLastLoop n l = some (l ++ List.replicate n x)
  | 0, l, x, _ => by simp [appendLastLoop]
  | n + 1, l, x, h => by
    unfold appendLastLoop
    rw [h]
    show appendLastLoop n (l ++ [x]) = _
    rw [appendLastLoop_spec n (l ++ [x]) x (by simp)]
    simp [List.replicate_succ]

/-- Claim C10: for nonempty beta, _resize returns a list of exactly alpha's
length: the prefix of beta when beta is at least as long as alpha, and
otherwise beta padded by repeating its last element. -/
theorem resize_spec {α : Type} (alpha beta : List α) (h : beta ≠ []) :
    ∃ r, _resize alpha beta = some r ∧ r.length = alpha.length ∧
      (alpha.length ≤ beta.length → r = beta.take alpha.length) ∧
      (beta.length < alpha.length →
        r = beta ++ List.replicate (alpha.length - beta.length) (beta.getLast h)) := by
  unfold _resize
  by_cases h1 : alpha.length < beta.length
  · rw [if_pos h1]
    refine ⟨beta.take alpha.length, rfl, ?_, fun _ => rfl, fun hc => absurd hc (by omega)⟩
    rw [List.length_take]
    omega
  · rw [if_neg h1]
    by_cases h2 : alpha.length > beta.length
    · rw [if_pos h2]
      refine ⟨beta ++ List.replicate (alpha.length - beta.length) (beta.getLast h),
        ?_, ?_, fun hc => absurd hc (by omega), fun _ => rfl⟩
      · exact appendLastLoop_spec _ _ _ (List.getLast?_eq_getLast beta h)
      · rw [List.length_append, List.length_replicate]
        omega
    · rw [if_neg h2]
      have hlen : alpha.length = beta.length := by omega
      refine ⟨beta, rfl, hlen.symm, fun _ => ?_, fun hc => absurd hc (by omega)⟩
      rw [hlen, List.take_length]

/-- Witness for resize_spec at a concrete input. -/
theorem resize_spec_witness :
    _resize [5, 6, 7, 8] ([1, 2] : List Nat) = some [1, 2, 2, 2] := by
  obtain ⟨r, hr, -, -, hpad⟩ := resize_spec [5, 6, 7, 8] ([1, 2] : List Nat) (by decide)
  rw [hr, hpad (by decide)]
  decide

theorem pyTime_eq_some (h m : Int) (p : Int × Int) (hp : pyTime h m = some p) :
    p = (h, m) ∧ 0 ≤ h ∧ h ≤ 23 ∧ 0 ≤ m ∧ m ≤ 59 := by
  unfold pyTime at hp
  split at hp
  · cases hp
    exact ⟨rfl, by assumption⟩
  · cases hp

theorem clockValid_eq_isSome (base : Int) (s : String) :
    clockValid s = (trackCandidate base s).isSome := by
  unfold clockValid trackCandidate
  rcases h1 : pyInt (pySliceTo s 2) with _ | hh
  · simp
  · rcases h2 : pyInt (pySliceFrom s 2) with _ | mm
    · simp
    · rcases h3 : pyTime hh mm with _ | p <;> simp [h3]

/-- Claim C8 (amended): the comm window computation raises exactly when one
of the two clock strings fails the code's parse condition clockValid. -/
theorem commCheck_error_iff (comm : CommPass) (t : Int) :
    (commCheck comm t).isSome = (clockValid comm.bot && clockValid comm.eot) := by
  unfold commCheck
  rw [clockValid_eq_isSome comm.start comm.bot, clockValid_eq_isSome comm.stop comm.eot]
  rcases trackCandidate comm.start comm.bot with _ | c1 <;>
    rcases trackCandidate comm.stop comm.eot with _ | c2 <;> simp

/-- Counterexample to claim C8 as stated: the three-character clock string 235
is not in two-digit-hour two-digit-minute form, yet the computation does not
fail on it: int of its first two characters is 23 and int of the rest is 5,
both in range, so a window is silently computed. -/
theorem commCheck_nonHHMM_no_error :
    specTwoDigitClock "235" = false ∧
    (commCheck { start := 949500, stop := 952800, bot := "235", eot := "0010" }
        950000).isSome = true := by
  decide

theorem commCheck_eq_some (comm : CommPass) (t : Int) (st : CommState)
    (h : commCheck comm t = some st) :
    ∃ c1 c2, trackCandidate comm.start comm.bot = some c1 ∧
      trackCandidate comm.stop comm.eot = some c2 ∧ st = mkCommState comm t c1 c2 := by
  unfold commCheck at h
  rcases h1 : trackCandidate comm.start comm.bot with _ | c1 <;>
    rcases h2 : trackCandidate comm.stop comm.eot with _ | c2 <;>
    rw [h1, h2] at h <;> try cases h
  exact ⟨c1, c2, rfl, rfl, rfl⟩

theorem trackCandidate_eq_some (base : Int) (clock : String) (c hh hm : Int)
    (h1 : pyInt (pySliceTo clock 2) = some hh)
    (h2 : pyInt (pySliceFrom clock 2) = some hm)
    (hc : trackCandidate base clock = some c) :
    c = dateOf base + hh * 3600 + hm * 60 ∧ 0 ≤ hh ∧ hh ≤ 23 ∧ 0 ≤ hm ∧ hm ≤ 59 := by
  rcases h3 : pyTime hh hm with _ | p
  · simp [trackCandidate, h1, h2, h3] at hc
  · obtain ⟨hp, hb⟩ := pyTime_eq_some hh hm p h3
    subst hp
    simp [trackCandidate, h1, h2, h3] at hc
    omega

theorem trackCandidate_bounds (base : Int) (clock : String) (c : Int)
    (hc : trackCandidate base clock = some c) :
    dateOf base ≤ c ∧ c < dateOf base + 86400 := by
  rcases h1 : pyInt (pySliceTo clock 2) with _ | hh
  · simp [trackCandidate, h1] at hc
  · rcases h2 : pyInt (pySliceFrom clock 2) with _ | hm
    · simp [trackCandidate, h1, h2] at hc
    · rcases h3 : pyTime hh hm with _ | p
      · simp [trackCandidate, h1, h2, h3] at hc
      · obtain ⟨hp, hb⟩ := pyTime_eq_some hh hm p h3
        subst hp
        simp [trackCandidate, h1, h2, h3] at hc
        omega

theorem dateOf_le_self (t : Int) : dateOf t ≤ t := by
  unfold dateOf
  omega

theorem self_lt_dateOf_add (t : Int) : t < dateOf t + 86400 := by
  unfold dateOf
  omega

/-- Claim C3: trackStart is the calendar date of passStart combined with the
hour and minute parsed from the begin-of-track clock, shifted forward by
86400 seconds when that candidate precedes passStart; trackStop is the
calendar date of passStop combined with the parsed end-of-track clock,
shifted back by 86400 seconds when that candidate follows passStop. -/
theorem commCheck_track_build (comm : CommPass) (t : Int) (st : CommState)
    (bh bm eh em : Int)
    (hbh : pyInt (pySliceTo comm.bot 2) = some bh)
    (hbm : pyInt (pySliceFrom comm.bot 2) = some bm)
    (heh : pyInt (pySliceTo comm.eot 2) = some eh)
    (hem : pyInt (pySliceFrom comm.eot 2) = some em)
    (h : commCheck comm t = some st) :
    st.track_start =
      (if dateOf comm.start + bh * 3600 + bm * 60 < comm.start
       then dateOf comm.start + bh * 3600 + bm * 60 + 86400
       else dateOf comm.start + bh * 3600 + bm * 60) ∧
    st.track_stop =
      (if dateOf comm.stop + eh * 3600 + em * 60 > comm.stop
       then dateOf comm.stop + eh * 3600 + em * 60 - 86400
       else dateOf comm.stop + eh * 3600 + em * 60) := by
  obtain ⟨c1, c2, hc1, hc2, hst⟩ := commCheck_eq_some comm t st h
  obtain ⟨he1, -⟩ := trackCandidate_eq_some comm.start comm.bot c1 bh bm hbh hbm hc1
  obtain ⟨he2, -⟩ := trackCandidate_eq_some comm.stop comm.eot c2 eh em heh hem hc2
  subst hst he1 he2
  exact ⟨rfl, rfl⟩

/-- Witness for commCheck_track_build: the no-rollover example of the spec,
a pass from 10:00 to 12:00 on day 11 with track clocks 1015 and 1145. -/
theorem commCheck_track_build_witness :
    (commCheck { start := 900000, stop := 907200, bot := "1015", eot := "1145" }
        901000).map CommState.track_start = some 900900 := by
  have h := commCheck_track_build
    { start := 900000, stop := 907200, bot := "1015", eot := "1145" } 901000
    { current_time := 901000, support_start := 900000, support_stop := 907200,
      track_start := 900900, track_stop := 906300,
      in_support := true, in_track := true }
    10 15 11 45 (by decide) (by decide) (by decide) (by decide) (by decide)
  decide

/-- Claim C4: both membership flags are strict open-interval tests, and a
reference instant equal to any boundary yields false. -/
theorem commCheck_flags_strict (comm : CommPass) (t : Int) (st : CommState)
    (h : commCheck comm t = some st) :
    (st.in_support = true ↔ comm.start < t ∧ t < comm.stop) ∧
    (st.in_track = true ↔ st.track_start < t ∧ t < st.track_stop) ∧
    (t = comm.start ∨ t = comm.stop → st.in_support = false) ∧
    (t = st.track_start ∨ t = st.track_stop → st.in_track = false) := by
  obtain ⟨c1, c2, -, -, hst⟩ := commCheck_eq_some comm t st h
  subst hst
  unfold mkCommState
  refine ⟨by simp, by simp, ?_, ?_⟩
  · rintro (rfl | rfl) <;> simp
  · intro h0
    simp at h0 ⊢
    omega

/-- Witness for commCheck_flags_strict: at the exact pass start the support
flag is false. -/
theorem commCheck_flags_strict_witness :
    (commCheck { start := 900000, stop := 907200, bot := "1015", eot := "1145" }
        900000).map CommState.in_support = some false := by
  have h := commCheck_flags_strict
    { start := 900000, stop := 907200, bot := "1015", eot := "1145" } 900000
    { current_time := 900000, support_start := 900000, support_stop := 907200,
      track_start := 900900, track_stop := 906300,
      in_support := false, in_track := false }
    (by decide)
  decide

/-- Claim C5: after the rollover correction the track window never lands on
the wrong side of its pass bound: trackStart is at or after both passStart
and passStart's local midnight, and trackStop is at or before passStop. -/
theorem commCheck_window_in_pass (comm : CommPass) (t : Int) (st : CommState)
    (hord : comm.start < comm.stop) (h : commCheck comm t = some st) :
    dateOf comm.start ≤ st.track_start ∧ comm.start ≤ st.track_start ∧
    st.track_stop ≤ comm.stop := by
  obtain ⟨c1, c2, hc1, hc2, hst⟩ := commCheck_eq_some comm t st h
  have hb1 := trackCandidate_bounds comm.start comm.bot c1 hc1
  have hb2 := trackCandidate_bounds comm.stop comm.eot c2 hc2
  have hd1 := dateOf_le_self comm.start
  have hd2 := self_lt_dateOf_add comm.start
  have hd3 := dateOf_le_self comm.stop
  have hd4 := self_lt_dateOf_add comm.stop
  subst hst
  unfold mkCommState
  simp only []
  constructor
  · split <;> omega
  constructor
  · split <;> omega
  · split <;> omega

/-- Witness for commCheck_window_in_pass: the rollover example of the spec,
a pass from 23:50 on day 11 to 00:40 on day 12 with track clocks 2355 and
0010. -/
theorem commCheck_window_in_pass_witness :
    dateOf 1036200 ≤ 1036500 ∧ (1036200 : Int) ≤ 1036500 ∧ (1037400 : Int) ≤ 1039200 := by
  have h := commCheck_window_in_pass
    { start := 1036200, stop := 1039200, bot := "2355", eot := "0010" } 1036800
    { current_time := 1036800, support_start := 1036200, support_stop := 1039200,
      track_start := 1036500, track_stop := 1037400,
      in_support := true, in_track := true }
    (by decide) (by decide)
  exact h

/-- One commCheckFull run factors through exactly the fetched comm pass and
the clock reading. -/
theorem commCheckFull_factor (env : DsnEnv) :
    commCheckFull env =
      match (env.dsn_comms env.clock).head? with
      | none => none
      | some comm => commCheck comm env.clock := by
  unfold commCheckFull
  rcases env.dsn_comms env.clock with _ | ⟨comm, rest⟩ <;> rfl

/-- Claim C7: the comm window result is a deterministic function of exactly
the fetched pass and the reference instant: it factors through them, and two
environments agreeing on the clock reading and on the first queried pass
yield identical results. -/
theorem commCheckFull_pure :
    (∀ env : DsnEnv, commCheckFull env =
      match (env.dsn_comms env.clock).head? with
      | none => none
      | some comm => commCheck comm env.clock) ∧
    (∀ e1 e2 : DsnEnv, e1.clock = e2.clock →
      (e1.dsn_comms e1.clock).head? = (e2.dsn_comms e2.clock).head? →
      commCheckFull e1 = commCheckFull e2) := by
  refine ⟨commCheckFull_factor, fun e1 e2 hclk hhd => ?_⟩
  rw [commCheckFull_factor, commCheckFull_factor]
  simp only [hhd]
  simp only [hclk]

/-- Witness for commCheckFull_pure: two environments whose dsn query differs
away from the sampled clock give the same window. -/
theorem commCheckFull_pure_witness :
    commCheckFull
      { clock := 901000,
        dsn_comms := fun _ =>
          [{ start := 900000, stop := 907200, bot := "1015", eot := "1145" }] } =
    commCheckFull
      { clock := 901000,
        dsn_comms := fun u =>
          if u = 901000 then
            [{ start := 900000, stop := 907200, bot := "1015", eot := "1145" }]
          else [] } :=
  commCheckFull_pure.2 _ _ rfl (by decide)

/-- Counterexample to claim C6 as stated: query_switch compares the stored
(lowercase) msid against the input with no case normalisation, so querying
the same channel in upper case and in lower case gives different switch
lists. -/
theorem query_switch_not_case_invariant :
    query_switch [mkRow 1 "abc" 0 100 true 0 "tephin" "none"] ["ABC"] ≠
    query_switch [mkRow 1 "abc" 0 100 true 0 "tephin" "none"] ["abc"] := by
  decide

/-- Claim C6 (amended): only the per-channel row-history lookup is
case-insensitive: query_msid_limits lowercases the requested name before
comparing, so two spellings with the same lowercasing give the same rows;
query_switch compares names exactly as given. -/
theorem limits_lookup_case_insensitive (db : List Limit) (m1 m2 : String)
    (h : pyLower m1 = pyLower m2) :
    rowsForChannel db m1 = rowsForChannel db m2 ∧
    dictLookup (query_msid_limits db [m1]) m1 =
      dictLookup (query_msid_limits db [m2]) m2 := by
  have hr : rowsForChannel db m1 = rowsForChannel db m2 := by
    unfold rowsForChannel
    rw [h]
  have single : ∀ m : String, query_msid_limits db [m] = [(m, rowsForChannel db m)] := by
    intro m
    simp [query_msid_limits, dictInsert]
  refine ⟨hr, ?_⟩
  rw [single, single]
  simp [dictLookup, List.find?, hr]

/-- Witness for limits_lookup_case_insensitive on a concrete database and the
spellings ABC and abc. -/
theorem limits_lookup_case_insensitive_witness :
    dictLookup (query_msid_limits [mkRow 1 "abc" 0 100 true 0 "none" "none"] ["ABC"])
        "ABC" =
      dictLookup (query_msid_limits [mkRow 1 "abc" 0 100 true 0 "none" "none"] ["abc"])
        "abc" :=
  (limits_lookup_case_insensitive [mkRow 1 "abc" 0 100 true 0 "none" "none"]
    "ABC" "abc" (by decide)).2

theorem mem_dedupFirstAux {α : Type} [DecidableEq α] :
    ∀ (l seen : List α) (a : α), a ∈ dedupFirstAux seen l ↔ a ∈ l ∧ a ∉ seen
  | [], seen, a => by simp [dedupFirstAux]
  | b :: bs, seen, a => by
    unfold dedupFirstAux
    by_cases hb : b ∈ seen
    · rw [if_pos hb, mem_dedupFirstAux bs seen a]
      constructor
      · rintro ⟨h1, h2⟩
        exact ⟨List.mem_cons_of_mem b h1, h2⟩
      · rintro ⟨h1, h2⟩
        rcases List.mem_cons.mp h1 with rfl | h1
        · exact absurd hb h2
        · exact ⟨h1, h2⟩
    · rw [if_neg hb]
      by_cases hab : a = b
      · subst hab
        constructor
        · intro _
          exact ⟨List.mem_cons_self a bs, hb⟩
        · intro _
          exact List.mem_cons_self a (dedupFirstAux (a :: seen) bs)
      · constructor
        · intro h1
          rcases List.mem_cons.mp h1 with rfl | h1
          · exact absurd rfl hab
          · rcases (mem_dedupFirstAux bs (b :: seen) a).mp h1 with ⟨h2, h3⟩
            exact ⟨List.mem_cons_of_mem b h2, fun hc => h3 (List.mem_cons_of_mem b hc)⟩
        · rintro ⟨h1, h2⟩
          rcases List.mem_cons.mp h1 with rfl | h1
          · exact absurd rfl hab
          · refine List.mem_cons_of_mem b ((mem_dedupFirstAux bs (b :: seen) a).mpr
              ⟨h1, ?_⟩)
            intro hc
            rcases List.mem_cons.mp hc with rfl | hc
            · exact hab rfl
            · exact h2 hc

theorem nodup_dedupFirstAux {α : Type} [DecidableEq α] :
    ∀ (l seen : List α), (dedupFirstAux seen l).Nodup
  | [], _ => by simp [dedupFirstAux]
  | b :: bs, seen => by
    unfold dedupFirstAux
    by_cases hb : b ∈ seen
    · rw [if_pos hb]
      exact nodup_dedupFirstAux bs seen
    · rw [if_neg hb]
      refine List.Nodup.cons ?_ (nodup_dedupFirstAux bs (b :: seen))
      intro hmem
      exact ((mem_dedupFirstAux bs (b :: seen) b).mp hmem).2 (List.mem_cons_self b seen)

theorem dedupFirstAux_congr {α : Type} [DecidableEq α] :
    ∀ (l s1 s2 : List α), (∀ a, a ∈ s1 ↔ a ∈ s2) →
      dedupFirstAux s1 l = dedupFirstAux s2 l
  | [], _, _, _ => rfl
  | b :: bs, s1, s2, h => by
    unfold dedupFirstAux
    by_cases hb : b ∈ s1
    · rw [if_pos hb, if_pos ((h b).mp hb), dedupFirstAux_congr bs s1 s2 h]
    · rw [if_neg hb, if_neg (fun hc => hb ((h b).mpr hc)),
        dedupFirstAux_congr bs (b :: s1) (b :: s2) (by intro a; simp [h a])]

theorem any_key_eq_mem_keys (d : List (String × List Limit)) (k : String) :
    d.any (fun p => decide (p.1 = k)) = true ↔ k ∈ dictKeys d := by
  constructor
  · intro h
    obtain ⟨p, hp, hpk⟩ := List.any_eq_true.mp h
    rw [decide_eq_true_eq] at hpk
    exact List.mem_map.mpr ⟨p, hp, hpk⟩
  · intro h
    obtain ⟨p, hp, hpk⟩ := List.mem_map.mp h
    exact List.any_eq_true.mpr ⟨p, hp, by rw [decide_eq_true_eq]; exact hpk⟩

theorem dedupFirstAux_cons_mem {α : Type} [DecidableEq α] (seen : List α) (b : α)
    (bs : List α) (h : b ∈ seen) :
    dedupFirstAux seen (b :: bs) = dedupFirstAux seen bs := by
  conv_lhs => unfold dedupFirstAux
  rw [if_pos h]

theorem dedupFirstAux_cons_notmem {α : Type} [DecidableEq α] (seen : List α) (b : α)
    (bs : List α) (h : b ∉ seen) :
    dedupFirstAux seen (b :: bs) = b :: dedupFirstAux (b :: seen) bs := by
  conv_lhs => unfold dedupFirstAux
  rw [if_neg h]

theorem dictInsert_key_found (acc : List (String × List Limit)) (m : String)
    (v : List Limit) (hmem : acc.any (fun p => decide (p.1 = m)) = true)
    (hv : ∀ p ∈ acc, p.1 = m → p.2 = v) :
    dictInsert acc m v = acc := by
  unfold dictInsert
  rw [if_pos hmem]
  have hcongr : ∀ p ∈ acc, (if p.1 = m then (m, v) else p) = p := by
    intro p hp
    by_cases hpk : p.1 = m
    · rw [if_pos hpk]
      have hval := hv p hp hpk
      obtain ⟨pk, pv⟩ := p
      simp only at hpk hval
      subst hpk hval
      rfl
    · rw [if_neg hpk]
  rw [List.map_congr_left hcongr, List.map_id']

theorem dictInsert_key_new (acc : List (String × List Limit)) (m : String)
    (v : List Limit) (hmem : ¬ acc.any (fun p => decide (p.1 = m)) = true) :
    dictInsert acc m v = acc ++ [(m, v)] := by
  unfold dictInsert
  rw [if_neg hmem]

theorem qml_go (db : List Limit) :
    ∀ (msids : List String) (acc : List (String × List Limit)),
      (∀ p ∈ acc, p.2 = rowsForChannel db p.1) →
      msids.foldl (fun a m => dictInsert a m (rowsForChannel db m)) acc
        = acc ++ (dedupFirstAux (dictKeys acc) msids).map
            (fun m => (m, rowsForChannel db m))
  | [], acc, _ => by simp [dedupFirstAux]
  | m :: ms, acc, hinv => by
    rw [List.foldl_cons]
    by_cases hmem : acc.any (fun p => decide (p.1 = m)) = true
    · rw [dedupFirstAux_cons_mem _ _ _ ((any_key_eq_mem_keys acc m).mp hmem)]
      rw [dictInsert_key_found acc m (rowsForChannel db m) hmem
        (fun p hp hpk => by rw [hinv p hp, hpk])]
      exact qml_go db ms acc hinv
    · rw [dedupFirstAux_cons_notmem _ _ _
        (fun hc => hmem ((any_key_eq_mem_keys acc m).mpr hc))]
      rw [dictInsert_key_new acc m (rowsForChannel db m) hmem]
      have hinv2 : ∀ p ∈ acc ++ [(m, rowsForChannel db m)],
          p.2 = rowsForChannel db p.1 := by
        intro p hp
        rcases List.mem_append.mp hp with hp | hp
        · exact hinv p hp
        · rcases List.mem_singleton.mp hp with rfl
          rfl
      rw [qml_go db ms (acc ++ [(m, rowsForChannel db m)]) hinv2]
      rw [dedupFirstAux_congr ms (dictKeys (acc ++ [(m, rowsForChannel db m)]))
        (m :: dictKeys acc) (by intro a; simp [dictKeys, or_comm])]
      simp [List.append_assoc]

/-- query_msid_limits is the first-occurrence deduplication of the request
list, each name in its original casing paired with its lowercased row
history. -/
theorem qml_closed_form (db : List Limit) (msids : List String) :
    query_msid_limits db msids
      = (dedupFirst msids).map (fun m => (m, rowsForChannel db m)) := by
  unfold query_msid_limits dedupFirst
  have h := qml_go db msids [] (by intro p hp; cases hp)
  simpa [dictKeys] using h

theorem find?_keyed (db : List Limit) :
    ∀ (l : List String) (m : String),
      (l.map (fun x => (x, rowsForChannel db x))).find? (fun p => decide (p.1 = m))
        = if m ∈ l then some (m, rowsForChannel db m) else none
  | [], m => by simp
  | x :: xs, m => by
    rw [List.map_cons]
    by_cases hxm : x = m
    · subst hxm
      rw [List.find?_cons_of_pos _ (by simp)]
      simp
    · rw [List.find?_cons_of_neg _ (by simp [hxm]), find?_keyed db xs m]
      have hmx : ¬ m = x := fun hc => hxm hc.symm
      simp [hmx]

theorem dictLookup_keyed (db : List Limit) (l : List String) (m : String) :
    dictLookup (l.map (fun x => (x, rowsForChannel db x))) m
      = if m ∈ l then some (rowsForChannel db m) else none := by
  unfold dictLookup
  rw [find?_keyed db l m]
  by_cases hm : m ∈ l <;> simp [hm]

/-- Claim C9: query_msid_limits keys are exactly the requested names in their
original casing, one entry each even for repeats; a requested channel with no
matching rows maps to the empty history instead of being absent or raising. -/
theorem query_msid_limits_keys (db : List Limit) (msids : List String) :
    (dictKeys (query_msid_limits db msids)).Nodup ∧
    (∀ m, m ∈ dictKeys (query_msid_limits db msids) ↔ m ∈ msids) ∧
    (∀ m, m ∈ msids →
      dictLookup (query_msid_limits db msids) m = some (rowsForChannel db m)) ∧
    (∀ m, m ∈ msids → (∀ r ∈ db, ¬ r.msid = pyLower m) →
      dictLookup (query_msid_limits db msids) m = some []) := by
  have hkeys : dictKeys ((dedupFirst msids).map
      (fun m => (m, rowsForChannel db m))) = dedupFirst msids := by
    unfold dictKeys
    rw [List.map_map]
    exact List.map_id' (dedupFirst msids)
  have hmem : ∀ m, m ∈ dedupFirst msids ↔ m ∈ msids := by
    intro m
    unfold dedupFirst
    rw [mem_dedupFirstAux msids [] m]
    simp
  have hlook : ∀ m, m ∈ msids →
      dictLookup (query_msid_limits db msids) m = some (rowsForChannel db m) := by
    intro m hm
    rw [qml_closed_form, dictLookup_keyed db (dedupFirst msids) m,
      if_pos ((hmem m).mpr hm)]
  refine ⟨?_, ?_, hlook, ?_⟩
  · rw [qml_closed_form, hkeys]
    exact nodup_dedupFirstAux msids []
  · intro m
    rw [qml_closed_form, hkeys]
    exact hmem m
  · intro m hm hnone
    rw [hlook m hm]
    unfold rowsForChannel
    rw [List.filter_eq_nil_iff.mpr
      (by intro r hr; rw [decide_eq_true_eq]; exact hnone r hr)]
    rfl

/-- Witness for query_msid_limits_keys: an unknown channel is present with an
empty history. -/
theorem query_msid_limits_keys_witness :
    dictLookup (query_msid_limits [] ["TEPHIN"]) "TEPHIN" = some [] :=
  (query_msid_limits_keys [] ["TEPHIN"]).2.2.2 "TEPHIN" (by decide)
    (by intro r hr; cases hr)

theorem activeRowForSet_single (row : Limit) (t : Int) (k : Int) :
    activeRowForSet [row] k t =
      if row.setkey = k ∧ row.datesec ≤ t ∧ row.mlmenable = true then some row
      else none := by
  unfold activeRowForSet currentRowForSet
  rw [List.filter_cons, List.filter_nil]
  simp only [decide_eq_true_eq]
  by_cases h1 : row.setkey = k ∧ row.datesec ≤ t
  · rw [if_pos h1, List.foldl_cons, List.foldl_nil]
    by_cases h2 : row.mlmenable = true
    · rw [if_pos ⟨h1.1, h1.2, h2⟩]
      show (if row.mlmenable = true then some row else none) = some row
      rw [if_pos h2]
    · rw [if_neg (by rintro ⟨-, -, hc⟩; exact h2 hc)]
      show (if row.mlmenable = true then some row else none) = none
      rw [if_neg h2]
  · rw [if_neg h1, List.foldl_nil,
      if_neg (by rintro ⟨ha, hb, -⟩; exact h1 ⟨ha, hb⟩)]

theorem dedupFirst_singleton {α : Type} [DecidableEq α] (a : α) :
    dedupFirst [a] = [a] := by
  unfold dedupFirst
  rw [dedupFirstAux_cons_notmem [] a [] (List.not_mem_nil a)]
  rfl

/-- Claim C2 (amended): for a channel whose history is a single row, the
two-argument resolveActive (no switch value supplied) returns that row exactly
when atTime is at or after the row's effectiveAt, the row is enabled, and the
row's defaultSet equals its setKey; whenever atTime precedes the row's
effectiveAt the result is NotFound. -/
theorem resolveActive_single_row (db : List Limit) (ch : String) (t : Int)
    (row : Limit) (hrow : rowsForChannel db ch = [row]) :
    (resolveActive db ch t none = some row ↔
      row.datesec ≤ t ∧ row.mlmenable = true ∧ row.default_set = row.setkey) ∧
    (t < row.datesec → resolveActive db ch t none = none) := by
  have hmain : resolveActive db ch t none =
      if row.datesec ≤ t ∧ row.mlmenable = true then
        (if row.setkey = row.default_set ∧ row.datesec ≤ t ∧ row.mlmenable = true
         then some row else none)
      else none := by
    simp only [resolveActive]
    rw [hrow, List.map_cons, List.map_nil, dedupFirst_singleton]
    by_cases hA : row.datesec ≤ t ∧ row.mlmenable = true
    · have hcur : List.filterMap (fun k => activeRowForSet [row] k t) [row.setkey]
          = [row] := by
        rw [List.filterMap_cons, activeRowForSet_single row t row.setkey,
          if_pos ⟨rfl, hA.1, hA.2⟩]
        rfl
      rw [hcur, if_pos hA]
      show activeRowForSet [row]
        (if ([row].all fun r => decide (r.mlimsw = "none")) then row.default_set
         else row.default_set) t = _
      rw [ite_self, activeRowForSet_single row t row.default_set]
    · have hcur : List.filterMap (fun k => activeRowForSet [row] k t) [row.setkey]
          = [] := by
        rw [List.filterMap_cons, activeRowForSet_single row t row.setkey,
          if_neg (by rintro ⟨-, hb, hc⟩; exact hA ⟨hb, hc⟩)]
        rfl
      rw [hcur, if_neg hA]
  constructor
  · rw [hmain]
    by_cases hA : row.datesec ≤ t ∧ row.mlmenable = true
    · rw [if_pos hA]
      by_cases hB : row.setkey = row.default_set
      · rw [if_pos ⟨hB, hA.1, hA.2⟩]
        constructor
        · intro _
          exact ⟨hA.1, hA.2, hB.symm⟩
        · intro _
          rfl
      · rw [if_neg (by rintro ⟨hc, -, -⟩; exact hB hc)]
        constructor
        · intro hc
          cases hc
        · rintro ⟨-, -, hc⟩
          exact absurd hc.symm hB
    · rw [if_neg hA]
      constructor
      · intro hc
        cases hc
      · rintro ⟨h1, h2, -⟩
        exact absurd ⟨h1, h2⟩ hA
  · intro ht
    rw [hmain, if_neg (by rintro ⟨h1, -⟩; omega)]

/-- Counterexample to claim C2 as stated: a channel whose single row is
disabled; at an atTime equal to the row's effectiveAt the resolver returns
NotFound rather than the row, because a disabled current row deactivates its
set from its effectiveAt onward. -/
theorem resolveActive_single_row_cex :
    rowsForChannel [mkRow 7 "abc" 1 100 false 1 "none" "none"] "abc"
        = [mkRow 7 "abc" 1 100 false 1 "none" "none"] ∧
    (mkRow 7 "abc" 1 100 false 1 "none" "none").datesec ≤ 100 ∧
    resolveActive [mkRow 7 "abc" 1 100 false 1 "none" "none"] "abc" 100 none
        = none := by
  decide

/-- Witness for resolveActive_single_row: a single enabled row with
defaultSet equal to its setKey is returned at a time past its effectiveAt. -/
theorem resolveActive_single_row_witness :
    resolveActive [mkRow 8 "abc" 1 100 true 1 "none" "none"] "abc" 150 none
      = some (mkRow 8 "abc" 1 100 true 1 "none" "none") :=
  ((resolveActive_single_row [mkRow 8 "abc" 1 100 true 1 "none" "none"] "abc" 150
    (mkRow 8 "abc" 1 100 true 1 "none" "none") (by decide)).1).mpr (by decide)

end Msid
